import Mathlib

/-!
Verification of the StGit patch-stack sources against their specification.

The development shallowly embeds the two source modules:
* `stgit/commands/hide.py` — the `hide` command (`StGit.Hide`);
* `stgit/git.py` — the git plumbing layer (`StGit.Git`).

External processes (`git-...` invocations) are modelled by passing their
observable results as explicit parameters; module-level mutable state
(`__head`, `__commits`) is modelled by explicit state passing.
-/

namespace StGit

namespace Hide

/-- The three ordered patch-name sequences of a stack, as exposed by
`StackTransaction` (`trans.applied`, `trans.unapplied`, `trans.hidden`). -/
structure StackState where
  applied : List String
  unapplied : List String
  hidden : List String
deriving DecidableEq, Repr

/-- The warning text emitted by `hide.py` line 52:
`out.warn('Patch "%s" already hidden' % p)`. -/
def alreadyHiddenWarning (p : String) : String :=
  "Patch \"" ++ p ++ "\" already hidden"

/-- Warnings produced by the loop at `hide.py` lines 50-52: one warning per
requested patch that is already in `trans.hidden`, in request order. -/
def hideWarnings (transHidden : List String) (patches : List String) : List String :=
  (patches.filter (fun p => p ∈ transHidden)).map alreadyHiddenWarning

/-- The working set after `hide.py` line 53:
`patches = [p for p in patches if p not in set(trans.hidden)]`. -/
def workingPatches (transHidden : List String) (patches : List String) : List String :=
  patches.filter (fun p => p ∉ transHidden)

/-- The target stack state built by `hide.py` lines 55-57 and passed to
`trans.reorder_patches(applied, unapplied, hidden)` at line 59. -/
def hideTarget (st : StackState) (patches0 : List String) : StackState :=
  let patches := workingPatches st.hidden patches0
  { applied := st.applied.filter (fun p => p ∉ patches)
    unapplied := st.unapplied.filter (fun p => p ∉ patches)
    hidden := patches ++ st.hidden }

/-- The observable outcome of `StackTransaction.run`. -/
structure RunResult where
  success : Bool
  published : Bool
  mergeCalls : Nat
deriving DecidableEq, Repr

/-- Modelled from the spec: `StackTransaction.run` lives in
`stgit.lib.transaction`, which is not among the sources.  Per spec §4.1, a
no-op target (equal to the current state) short-circuits with zero backend
merge/commit calls but still performs the idempotent ref publish and
succeeds.  Only this no-op path is pinned down by the spec sentences used
here, so other targets are left unmodelled (`none`). -/
def runModel (current target : StackState) : Option RunResult :=
  if target = current then some ⟨true, true, 0⟩ else none

/-- The body of `hide.py` `func` after argument parsing: emit warnings,
build the target, hand it to `reorder_patches`, and return `trans.run()`
(which is invoked unconditionally at line 60). -/
def hideCommand (st : StackState) (patches : List String) :
    List String × StackState × Option RunResult :=
  let warnings := hideWarnings st.hidden patches
  let target := hideTarget st patches
  (warnings, target, runModel st target)

/-- Helper: the working set drops nothing when no requested patch is hidden. -/
theorem workingPatches_eq_self {hiddenL patches : List String}
    (h : ∀ p ∈ patches, p ∉ hiddenL) :
    workingPatches hiddenL patches = patches := by
  apply List.filter_eq_self.mpr
  intro a ha
  simpa using h a ha

/-- Helper: the working set is empty when every requested patch is hidden. -/
theorem workingPatches_eq_nil {hiddenL patches : List String}
    (h : ∀ p ∈ patches, p ∈ hiddenL) :
    workingPatches hiddenL patches = [] := by
  apply List.filter_eq_nil_iff.mpr
  intro a ha
  simpa using h a ha

/-- Helper: membership of the working set. -/
theorem mem_workingPatches {hiddenL patches : List String} {x : String} :
    x ∈ workingPatches hiddenL patches ↔ x ∈ patches ∧ x ∉ hiddenL := by
  simp [workingPatches]

/-- Helper: the `applied` component of the built target, unfolded. -/
theorem hideTarget_applied (st : StackState) (patches : List String) :
    (hideTarget st patches).applied
      = st.applied.filter (fun p => p ∉ workingPatches st.hidden patches) := rfl

/-- Helper: the `unapplied` component of the built target, unfolded. -/
theorem hideTarget_unapplied (st : StackState) (patches : List String) :
    (hideTarget st patches).unapplied
      = st.unapplied.filter (fun p => p ∉ workingPatches st.hidden patches) := rfl

/-- Helper: the `hidden` component of the built target, unfolded. -/
theorem hideTarget_hidden (st : StackState) (patches : List String) :
    (hideTarget st patches).hidden
      = workingPatches st.hidden patches ++ st.hidden := rfl

/-- Helper: filtering out the members of `W` keeps the count of any
non-member of `W` unchanged. -/
theorem count_filter_keep {x : String} {W : List String} (h : x ∉ W)
    (l : List String) :
    (l.filter (fun q => q ∉ W)).count x = l.count x := by
  induction l with
  | nil => simp
  | cons a t ih =>
    simp only [List.filter_cons]
    by_cases haW : a ∈ W
    · rw [if_neg (by simpa using haW)]
      have hax : x ≠ a := by
        intro he
        subst he
        exact h haW
      rw [List.count_cons_of_ne hax, ih]
    · rw [if_pos (by simpa using haW)]
      rw [List.count_cons, List.count_cons, ih]

/-- Helper: filtering out the members of `W` drops every member of `W`. -/
theorem count_filter_drop {x : String} {W : List String} (h : x ∈ W)
    (l : List String) :
    (l.filter (fun q => q ∉ W)).count x = 0 := by
  apply List.count_eq_zero_of_not_mem
  intro hm
  have := (List.mem_filter.mp hm).2
  simp at this
  exact this h

/-- Helper: filtering by non-membership in the empty list keeps everything. -/
theorem filter_not_mem_nil (l : List String) :
    l.filter (fun p => p ∉ ([] : List String)) = l := by
  apply List.filter_eq_self.mpr
  intro a _
  simp

/-- C1 counterexample: with hidden = [D] and request hide(D), the warning the
code emits is `Patch "D" already hidden`, not the spec's `patch D already
hidden`. -/
theorem hide_warning_text_counterexample :
    hideWarnings ["D"] ["D"] = ["Patch \"D\" already hidden"] ∧
    "patch D already hidden" ∉ hideWarnings ["D"] ["D"] := by
  decide

/-- C1 (amended): a requested patch already in the hidden sequence produces
the warning `Patch "<name>" already hidden`, is dropped from the working set,
and is neither moved nor duplicated in the built target (its occurrence
count in each of the three sequences is unchanged); it causes no failure. -/
theorem hide_already_hidden_dropped (st : StackState) (patches : List String)
    (p : String) (hreq : p ∈ patches) (hhid : p ∈ st.hidden) :
    alreadyHiddenWarning p ∈ hideWarnings st.hidden patches ∧
    p ∉ workingPatches st.hidden patches ∧
    (hideTarget st patches).applied.count p = st.applied.count p ∧
    (hideTarget st patches).unapplied.count p = st.unapplied.count p ∧
    (hideTarget st patches).hidden.count p = st.hidden.count p := by
  have hnw : p ∉ workingPatches st.hidden patches := by
    intro hw
    exact (mem_workingPatches.mp hw).2 hhid
  refine ⟨?_, hnw, ?_, ?_, ?_⟩
  · exact List.mem_map_of_mem _ (List.mem_filter.mpr ⟨hreq, by simpa using hhid⟩)
  · rw [hideTarget_applied]
    exact count_filter_keep hnw st.applied
  · rw [hideTarget_unapplied]
    exact count_filter_keep hnw st.unapplied
  · rw [hideTarget_hidden, List.count_append,
        List.count_eq_zero_of_not_mem hnw]
    exact Nat.zero_add _

/-- C2: when the requested names are distinct, drawn from the current patch
universe and none is already hidden, the built target removes exactly those
names from `applied` and `unapplied` (order preserved, by filtering) and
prepends them to `hidden`; `unapplied` is unchanged whenever no requested
name lies in it (in particular when all requested names are applied). -/
theorem hide_target_shape (st : StackState) (patches : List String)
    (hnd : patches.Nodup)
    (huniv : ∀ p ∈ patches, p ∈ st.applied ++ st.unapplied ++ st.hidden)
    (hnh : ∀ p ∈ patches, p ∉ st.hidden) :
    (hideTarget st patches).applied = st.applied.filter (fun p => p ∉ patches) ∧
    (hideTarget st patches).unapplied = st.unapplied.filter (fun p => p ∉ patches) ∧
    (hideTarget st patches).hidden = patches ++ st.hidden ∧
    ((∀ p ∈ st.unapplied, p ∉ patches) →
      (hideTarget st patches).unapplied = st.unapplied) := by
  have hW : workingPatches st.hidden patches = patches := workingPatches_eq_self hnh
  refine ⟨?_, ?_, ?_, ?_⟩
  · simp [hideTarget, hW]
  · simp [hideTarget, hW]
  · simp [hideTarget, hW]
  · intro hnone
    simp only [hideTarget, hW]
    apply List.filter_eq_self.mpr
    intro a ha
    simpa using hnone a ha

/-- C3: starting from a stack in which every name occurs in exactly one of
the three sequences, and requesting distinct names drawn from their union,
the target handed to `reorder_patches` has the same occurrence count for
every name (so every name of the pre-transaction union occurs in exactly
one target sequence, exactly once). -/
theorem hide_preserves_union (st : StackState) (patches : List String)
    (hu : (st.applied ++ st.unapplied ++ st.hidden).Nodup)
    (hp : patches.Nodup)
    (hmem : ∀ p ∈ patches, p ∈ st.applied ++ st.unapplied ++ st.hidden) :
    (∀ x, ((hideTarget st patches).applied ++ (hideTarget st patches).unapplied
            ++ (hideTarget st patches).hidden).count x
          = (st.applied ++ st.unapplied ++ st.hidden).count x) ∧
    (∀ x ∈ st.applied ++ st.unapplied ++ st.hidden,
      ((hideTarget st patches).applied ++ (hideTarget st patches).unapplied
        ++ (hideTarget st patches).hidden).count x = 1) := by
  have main : ∀ x, ((hideTarget st patches).applied ++ (hideTarget st patches).unapplied
      ++ (hideTarget st patches).hidden).count x
      = (st.applied ++ st.unapplied ++ st.hidden).count x := by
    intro x
    rw [hideTarget_applied, hideTarget_unapplied, hideTarget_hidden]
    by_cases hxW : x ∈ workingPatches st.hidden patches
    · -- x is actually being hidden now: removed once from applied/unapplied,
      -- added once at the front of hidden.
      obtain ⟨hxp, hxh⟩ := mem_workingPatches.mp hxW
      have h1 := count_filter_drop hxW st.applied
      have h2 := count_filter_drop hxW st.unapplied
      have hWnd : (workingPatches st.hidden patches).Nodup := by
        unfold workingPatches
        exact hp.filter _
      have hcW : (workingPatches st.hidden patches).count x = 1 :=
        List.count_eq_one_of_mem hWnd hxW
      have hch : st.hidden.count x = 0 := List.count_eq_zero_of_not_mem hxh
      have hold : (st.applied ++ st.unapplied ++ st.hidden).count x = 1 :=
        List.count_eq_one_of_mem hu (hmem x hxp)
      simp only [List.count_append] at hold ⊢
      omega
    · -- x is untouched: the filters keep it and it is not in the new prefix.
      have h1 := count_filter_keep hxW st.applied
      have h2 := count_filter_keep hxW st.unapplied
      have hcW : (workingPatches st.hidden patches).count x = 0 :=
        List.count_eq_zero_of_not_mem hxW
      simp only [List.count_append]
      omega
  exact ⟨main, fun x hx => by rw [main x]; exact List.count_eq_one_of_mem hu hx⟩

/-- C4: when every requested name is already hidden, the built target equals
the current state sequence-by-sequence, `run()` is still invoked, and the
no-op publish succeeds. -/
theorem hide_all_hidden_noop (st : StackState) (patches : List String)
    (h : ∀ p ∈ patches, p ∈ st.hidden) :
    hideTarget st patches = st ∧
    (hideCommand st patches).2.1 = st ∧
    (hideCommand st patches).2.2 = some ⟨true, true, 0⟩ := by
  have hW : workingPatches st.hidden patches = [] := workingPatches_eq_nil h
  have htarget : hideTarget st patches = st := by
    simp only [hideTarget, hW]
    cases st with
    | mk a u hseq => simp [filter_not_mem_nil]
  refine ⟨htarget, ?_, ?_⟩
  · simpa [hideCommand] using htarget
  · simp [hideCommand, runModel, htarget]

/-- Witness for `hide_already_hidden_dropped` at stack
`applied=[A], hidden=[D]`, request `hide(D)`. -/
theorem hide_already_hidden_dropped_witness :
    ("D" ∈ (["D"] : List String) ∧ "D" ∈ (["D"] : List String)) ∧
    (alreadyHiddenWarning "D" ∈ hideWarnings ["D"] ["D"] ∧
     "D" ∉ workingPatches ["D"] ["D"] ∧
     (hideTarget ⟨["A"], [], ["D"]⟩ ["D"]).applied.count "D"
        = (["A"] : List String).count "D" ∧
     (hideTarget ⟨["A"], [], ["D"]⟩ ["D"]).unapplied.count "D"
        = ([] : List String).count "D" ∧
     (hideTarget ⟨["A"], [], ["D"]⟩ ["D"]).hidden.count "D"
        = (["D"] : List String).count "D") :=
  ⟨⟨by decide, by decide⟩,
   hide_already_hidden_dropped ⟨["A"], [], ["D"]⟩ ["D"] "D" (by decide) (by decide)⟩

/-- Witness for `hide_target_shape` at stack `applied=[A,B,C]`,
request `hide(C)` (spec Scenario A). -/
theorem hide_target_shape_witness :
    ((["C"] : List String).Nodup ∧
     (∀ p ∈ (["C"] : List String), p ∈ (["A", "B", "C"] : List String) ++ [] ++ []) ∧
     (∀ p ∈ (["C"] : List String), p ∉ ([] : List String))) ∧
    (hideTarget ⟨["A", "B", "C"], [], []⟩ ["C"]).hidden = ["C"] ++ [] :=
  ⟨⟨by decide, by decide, by decide⟩,
   (hide_target_shape ⟨["A", "B", "C"], [], []⟩ ["C"]
      (by decide) (by decide) (by decide)).2.2.1⟩

/-- Witness for `hide_preserves_union` at stack
`applied=[A], unapplied=[B], hidden=[D]`, request `hide(A)`. -/
theorem hide_preserves_union_witness :
    (((["A"] : List String) ++ ["B"] ++ ["D"]).Nodup ∧
     (["A"] : List String).Nodup ∧
     (∀ p ∈ (["A"] : List String), p ∈ (["A"] : List String) ++ ["B"] ++ ["D"])) ∧
    ((hideTarget ⟨["A"], ["B"], ["D"]⟩ ["A"]).applied
      ++ (hideTarget ⟨["A"], ["B"], ["D"]⟩ ["A"]).unapplied
      ++ (hideTarget ⟨["A"], ["B"], ["D"]⟩ ["A"]).hidden).count "A" = 1 :=
  ⟨⟨by decide, by decide, by decide⟩,
   (hide_preserves_union ⟨["A"], ["B"], ["D"]⟩ ["A"]
      (by decide) (by decide) (by decide)).2 "A" (by decide)⟩

/-- Witness for `hide_all_hidden_noop` at stack `hidden=[D]`,
request `hide(D)` (spec Scenario B). -/
theorem hide_all_hidden_noop_witness :
    (∀ p ∈ (["D"] : List String), p ∈ (["D"] : List String)) ∧
    hideTarget ⟨[], [], ["D"]⟩ ["D"] = ⟨[], [], ["D"]⟩ ∧
    (hideCommand ⟨[], [], ["D"]⟩ ["D"]).2.2 = some ⟨true, true, 0⟩ :=
  ⟨by decide,
   (hide_all_hidden_noop ⟨[], [], ["D"]⟩ ["D"] (by decide)).1,
   (hide_all_hidden_noop ⟨[], [], ["D"]⟩ ["D"] (by decide)).2.2⟩

end Hide

namespace Git

/-! Embedding of `stgit/git.py`.  Each `git-...` subprocess is an external
collaborator: its observable result is passed in as a parameter.  Python
exceptions are modelled with `Option String` (the raised message) or
`Except`. -/

/-- Message raised by `merge` when the non-recursive `git-read-tree` call
fails (git.py line 700). -/
def readTreeFailedMsg : String := "git-read-tree failed (local changes maybe?)"

/-- Message raised by `merge` when some per-path merge fails
(git.py line 745). -/
def indexMergeFailedMsg : String := "GIT index merging failed (possible conflicts)"

/-- Observable outcome of one `merge` invocation: the paths handed to
`gitmergeonefile.merge`, in order, and the raised exception message, if any. -/
structure MergeRun where
  mergedPaths : List String
  raised : Option String
deriving DecidableEq, Repr

/-- The per-path loop of `merge` (git.py lines 727-745): every unmerged path
is passed to `gitmergeonefile.merge`; `errors` is set if any call returns a
nonzero code, and only after the whole loop is the exception raised.
`unmerged` pairs each unmerged path with the exit code its single-file merge
would return. -/
def mergeUnmergedLoop (unmerged : List (String × Nat)) : MergeRun :=
  { mergedPaths := unmerged.map Prod.fst
    raised := if unmerged.any (fun pc => pc.2 ≠ 0) then some indexMergeFailedMsg else none }

/-- `merge(base, head1, head2, recursive)` (git.py lines 675-745).
`treeFail` is `some err` when the tree-level step (`git-merge-recursive`
when `recursive`, `git-read-tree -u -m --aggressive` otherwise) fails with
error text `err`; `unmerged` is the content of the unmerged index entries
afterwards, paired with each path's `gitmergeonefile.merge` exit code.
In the non-recursive case a tree-level failure raises at once; in the
recursive case the error is kept (`err_output`) and re-raised only when no
unmerged entries exist. -/
def merge (recursive : Bool) (treeFail : Option String)
    (unmerged : List (String × Nat)) : MergeRun :=
  match recursive, treeFail with
  | false, some _ => ⟨[], some readTreeFailedMsg⟩
  | false, none => mergeUnmergedLoop unmerged
  | true, some err =>
      if unmerged.isEmpty then ⟨[], some err⟩ else mergeUnmergedLoop unmerged
  | true, none => mergeUnmergedLoop unmerged

/-- `apply_diff(rev1, rev2)` (git.py lines 651-673).  `diffStr` is the output
of `diff(files, rev1, rev2)`; `applyOk` tells whether the `git-apply` call
would succeed.  Result: `Except.ok (returnValue, applyInvoked)` — the
function catches `GitRunException` and never raises. -/
def apply_diff (diffStr : String) (applyOk : Bool) : Except String (Bool × Bool) :=
  if diffStr ≠ "" then
    if applyOk then Except.ok (true, true) else Except.ok (false, true)
  else
    Except.ok (true, false)

/-- `apply_patch` head trajectory (git.py lines 911-949) for the code path
where a `base` revision is given: `get_head()` records the original head,
`switch(base)` moves to the base, then `git-apply --index` runs.  On apply
success a temporary commit is created (`commit` sets the head to it),
`switch(orig_head)` restores the head and `merge` runs; on apply failure
`switch(orig_head)` restores the head before the exception propagates.
Returns the successive head values (first = initial, last = final) and
whether the exception propagated. -/
def apply_patch (head : String) (base : Option String) (applyOk : Bool)
    (tempCommit : String) : List String × Bool :=
  match base with
  | none => ([head], !applyOk)
  | some b =>
      if applyOk then ([head, b, tempCommit, head], false)
      else ([head, b, head], true)

/-- The raise condition asserted by the claim about `merge`: some per-path
merge failed, or the tree-level *recursive* merge failed with no unmerged
paths.  (Stated from the spec's words, to be compared with the source.) -/
def mergeClaimedRaiseCondition (recursive : Bool) (treeFail : Option String)
    (unmerged : List (String × Nat)) : Prop :=
  (∃ pc ∈ unmerged, pc.2 ≠ 0) ∨
  (recursive = true ∧ treeFail.isSome = true ∧ unmerged = [])

instance (recursive : Bool) (treeFail : Option String)
    (unmerged : List (String × Nat)) :
    Decidable (mergeClaimedRaiseCondition recursive treeFail unmerged) := by
  unfold mergeClaimedRaiseCondition
  infer_instance

/-- Helper: when the exception is raised by the per-path loop. -/
theorem mergeUnmergedLoop_raised (unmerged : List (String × Nat)) :
    (mergeUnmergedLoop unmerged).raised.isSome = true ↔
      ∃ pc ∈ unmerged, pc.2 ≠ 0 := by
  unfold mergeUnmergedLoop
  by_cases h : unmerged.any (fun pc => pc.2 ≠ 0) = true
  · rw [if_pos h]
    simpa using List.any_eq_true.mp h
  · rw [if_neg h]
    simp only [Option.isSome_none, Bool.false_eq_true, false_iff]
    intro hex
    exact h (List.any_eq_true.mpr (by simpa using hex))

/-- C5 counterexample: a non-recursive `merge` whose tree-level
`git-read-tree` call fails raises `GitException` although no per-path merge
failed and the recursive merge did not fail — the claimed if-and-only-if
raise condition is violated. -/
theorem merge_raise_counterexample :
    ¬ ((merge false (some "fatal: read-tree error") []).raised.isSome = true ↔
        mergeClaimedRaiseCondition false (some "fatal: read-tree error") []) := by
  decide

/-- C5 (amended): in non-recursive mode a tree-level failure raises
immediately, before any per-path merge; otherwise `merge` runs the
single-file merge on every unmerged path and raises if and only if some
per-path merge fails or the recursive tree-level merge failed with no
unmerged paths; when every per-path merge succeeds (and the tree step did
not fail as above) it returns normally. -/
theorem merge_raises_iff (recursive : Bool) (treeFail : Option String)
    (unmerged : List (String × Nat)) :
    (merge recursive treeFail unmerged).mergedPaths
      = (if recursive = false ∧ treeFail.isSome = true then []
         else unmerged.map Prod.fst) ∧
    ((merge recursive treeFail unmerged).raised.isSome = true ↔
      (mergeClaimedRaiseCondition recursive treeFail unmerged ∨
       (recursive = false ∧ treeFail.isSome = true))) := by
  cases recursive with
  | false =>
    cases treeFail with
    | none =>
      refine ⟨by simp [merge, mergeUnmergedLoop], ?_⟩
      rw [show merge false none unmerged = mergeUnmergedLoop unmerged from rfl,
          mergeUnmergedLoop_raised]
      simp [mergeClaimedRaiseCondition]
    | some e =>
      refine ⟨by simp [merge], ?_⟩
      simp [merge, mergeClaimedRaiseCondition]
  | true =>
    cases treeFail with
    | none =>
      refine ⟨by simp [merge, mergeUnmergedLoop], ?_⟩
      rw [show merge true none unmerged = mergeUnmergedLoop unmerged from rfl,
          mergeUnmergedLoop_raised]
      simp [mergeClaimedRaiseCondition]
    | some e =>
      by_cases hemp : unmerged.isEmpty = true
      · have hnil : unmerged = [] := by simpa using hemp
        subst hnil
        refine ⟨by simp [merge], ?_⟩
        simp [merge, mergeClaimedRaiseCondition]
      · have hne : ¬ unmerged = [] := by simpa using hemp
        have hm : merge true (some e) unmerged = mergeUnmergedLoop unmerged := by
          simp [merge, hemp]
        refine ⟨by simp [hm, mergeUnmergedLoop], ?_⟩
        rw [hm, mergeUnmergedLoop_raised]
        simp [mergeClaimedRaiseCondition, hne]

/-- C6: `apply_diff` never raises — it returns `False` when `git-apply`
fails, `True` when the diff applies cleanly, and `True` without invoking
`git-apply` at all when the diff between the two revisions is empty. -/
theorem apply_diff_spec (diffStr : String) (applyOk : Bool) :
    apply_diff diffStr applyOk
      = Except.ok (if diffStr = "" then (true, false) else (applyOk, true)) := by
  unfold apply_diff
  by_cases h : diffStr = ""
  · simp [h]
  · cases applyOk <;> simp [h]

/-- C8: when `apply_patch` is called with a base revision and `git-apply`
fails, the head is switched back to the value it had at the start of the
call before the exception propagates: the trajectory starts and ends at the
original head and the exception is re-raised. -/
theorem apply_patch_restores_head_on_failure (h b tempCommit : String) :
    (apply_patch h (some b) false tempCommit).1.getLast? = some h ∧
    (apply_patch h (some b) false tempCommit).1.head? = some h ∧
    (apply_patch h (some b) false tempCommit).2 = true :=
  ⟨rfl, rfl, rfl⟩

/-! ### HEAD cache and ref store (git.py lines 257-321) -/

/-- The ref-store state visible to the module, plus the module-level
memoized HEAD value `__head` (git.py line 258).  `headSymref` is the ref
name the HEAD symref points at; `refs` maps ref names to commit ids. -/
structure GitState where
  headSymref : String
  refs : List (String × String)
  headCache : Option String
deriving DecidableEq, Repr

/-- Update (or insert) one binding of an association list, as
`git-update-ref` does for a ref. -/
def updateAssoc : List (String × String) → String → String → List (String × String)
  | [], r, v => [(r, v)]
  | (k, w) :: rest, r, v =>
      if k = r then (r, v) :: rest else (k, w) :: updateAssoc rest r v

/-- What `rev_parse('HEAD')` reads from the ref store: the value of the ref
the HEAD symref points at (`none` models the raised `GitException`). -/
def storeHead (st : GitState) : Option String :=
  st.refs.lookup st.headSymref

/-- `get_head()` (git.py lines 260-267): return the cached `__head` if set,
otherwise `rev_parse('HEAD')` and populate the cache. -/
def get_head (st : GitState) : Option String × GitState :=
  match st.headCache with
  | some h => (some h, st)
  | none =>
      match storeHead st with
      | some h => (some h, { st with headCache := some h })
      | none => (none, st)

/-- `git-update-ref` dereferences the `HEAD` symref; any other name is
updated directly. -/
def resolveRefName (st : GitState) (ref : String) : String :=
  if ref = "HEAD" then st.headSymref else ref

/-- `set_ref(ref, val)` (git.py lines 294-299): runs `git-update-ref`; it
does NOT touch the `__head` cache. -/
def set_ref (st : GitState) (ref val : String) : GitState :=
  { st with refs := updateAssoc st.refs (resolveRefName st ref) val }

/-- `set_branch(branch, val)` (git.py lines 301-302). -/
def set_branch (st : GitState) (branch val : String) : GitState :=
  set_ref st ("refs/heads/" ++ branch) val

/-- `set_head_file(ref)` (git.py lines 283-292): clears the head cache,
then points the HEAD symref at the new branch. -/
def set_head_file (st : GitState) (ref : String) : GitState :=
  { st with headCache := none, headSymref := "refs/heads/" ++ ref }

/-- `__set_head(val)` (git.py lines 304-314): if the cache is unset or
differs from `val`, update the ref through `set_ref('HEAD', val)` and set
the cache to `val`. -/
def set_head_internal (st : GitState) (val : String) : GitState :=
  if st.headCache = some val then st
  else { set_ref st "HEAD" val with headCache := some val }

/-- Helper: updating a binding makes the lookup of that key return the new
value. -/
theorem lookup_updateAssoc_self (l : List (String × String)) (k v : String) :
    (updateAssoc l k v).lookup k = some v := by
  induction l with
  | nil => simp [updateAssoc]
  | cons p rest ih =>
    cases p with
    | mk a w =>
      by_cases h : a = k
      · subst h
        simp [updateAssoc]
      · have hk : ¬ (k == a) = true := by simpa using fun he => h he.symm
        simp [updateAssoc, h, List.lookup_cons, hk, ih]

/-- C7 counterexample: warm the cache with `get_head`, then mutate the
current branch's ref through `set_branch`; the store's HEAD moves to `B`
but a subsequent `get_head` still returns the stale cached `A`. -/
theorem set_branch_stale_head_counterexample :
    (get_head (set_branch
        (get_head ⟨"refs/heads/master", [("refs/heads/master", "A")], none⟩).2
        "master" "B")).1 = some "A" ∧
    storeHead (set_branch
        (get_head ⟨"refs/heads/master", [("refs/heads/master", "A")], none⟩).2
        "master" "B") = some "B" ∧
    ("A" : String) ≠ "B" := by
  decide

/-- C7 (amended): `set_head_file` and `__set_head` do keep the memoized
HEAD consistent (`set_head_file` clears the cache so the next `get_head`
re-reads the store; `__set_head` writes ref and cache together), but
`set_ref` and `set_branch` leave the cache untouched, so a mutation made
through them can leave `get_head` stale. -/
theorem head_cache_mutators (st : GitState) (branch ref val : String) :
    (get_head (set_head_file st branch)).1 = storeHead (set_head_file st branch) ∧
    (set_ref st ref val).headCache = st.headCache ∧
    (set_branch st branch val).headCache = st.headCache ∧
    (set_head_internal st val).headCache = some val ∧
    (st.headCache ≠ some val → storeHead (set_head_internal st val) = some val) := by
  refine ⟨?_, rfl, rfl, ?_, ?_⟩
  · have hsf : set_head_file st branch
        = ⟨"refs/heads/" ++ branch, st.refs, none⟩ := rfl
    rw [hsf]
    unfold get_head storeHead
    cases hs : st.refs.lookup ("refs/heads/" ++ branch) with
    | none => simp [hs]
    | some h => simp [hs]
  · unfold set_head_internal
    by_cases h : st.headCache = some val
    · simp [h]
    · simp [h]
  · intro h
    unfold set_head_internal
    rw [if_neg h]
    unfold storeHead set_ref resolveRefName
    simp [lookup_updateAssoc_self]

/-- Witness for `head_cache_mutators` with a cold cache, so that the
`__set_head` store-update implication fires. -/
theorem head_cache_mutators_witness :
    ((⟨"refs/heads/m", [("refs/heads/m", "A")], none⟩ : GitState).headCache
        ≠ some "B") ∧
    storeHead (set_head_internal
        ⟨"refs/heads/m", [("refs/heads/m", "A")], none⟩ "B") = some "B" :=
  ⟨by decide,
   (head_cache_mutators ⟨"refs/heads/m", [("refs/heads/m", "A")], none⟩
      "m" "r" "B").2.2.2.2 (by decide)⟩

/-! ### Working-tree status (git.py lines 150-160, 190-242) -/

/-- Python truthiness of the optional `files` argument (`None` and the
empty list are both falsy). -/
def pyTruthy (files : Option (List String)) : Bool :=
  match files with
  | none => false
  | some l => !l.isEmpty

/-- `get_conflicts()` normalisation at git.py lines 224-226: a missing
conflicts file (`None`) becomes the empty list. -/
def getConflictsOrEmpty (conflicts : Option (List String)) : List String :=
  match conflicts with
  | none => []
  | some l => l

/-- `tree_status` (git.py lines 190-242).  The three external inputs are the
`git-ls-files --others` output (`unknownFiles`, used only when `unknown`),
the persisted conflicts list, and the parsed `(status, filename)` pairs from
`git-diff-index` (`diffEntries`).  Conflicted files are appended as
`('C', f)` when no (truthy) file filter is given or the file is in the
filter; diff entries whose filename is in the conflicts list are skipped. -/
def tree_status (files : Option (List String)) (unknown : Bool)
    (unknownFiles : List String) (conflicts : Option (List String))
    (diffEntries : List (String × String)) : List (String × String) :=
  let cacheUnknown := if unknown then unknownFiles.map (fun f => ("?", f)) else []
  let conflictsL := getConflictsOrEmpty conflicts
  let cacheConflicts :=
    (conflictsL.filter (fun f => pyTruthy files = false ∨ f ∈ files.getD [])).map
      (fun f => ("C", f))
  let diffKept := diffEntries.filter (fun fs => fs.2 ∉ conflictsL)
  cacheUnknown ++ cacheConflicts ++ diffKept

/-- Helper: a tagged list over paths not containing `p` has no entry with
path `p`. -/
theorem filter_snd_map_tag_eq_nil {l : List String} {tag p : String}
    (h : p ∉ l) :
    ((l.map (fun f => (tag, f))).filter (fun e => e.2 = p)) = [] := by
  induction l with
  | nil => rfl
  | cons a t ih =>
    have ha : ¬ (a = p) := fun he => h (by simp [he])
    simp only [List.map_cons, List.filter_cons]
    rw [if_neg (by simpa using ha)]
    exact ih (fun hm => h (List.mem_cons_of_mem _ hm))

/-- Helper: over a duplicate-free path list containing `p`, the tagged
entries with path `p` are exactly one `("C", p)`. -/
theorem filter_snd_map_conflict {l : List String} {p : String}
    (hnd : l.Nodup) (hp : p ∈ l) :
    ((l.map (fun f => ("C", f))).filter (fun e => e.2 = p)) = [("C", p)] := by
  induction l with
  | nil => cases hp
  | cons a t ih =>
    by_cases hap : a = p
    · have hpt : p ∉ t := by
        have hat : a ∉ t := (List.nodup_cons.mp hnd).1
        rw [hap] at hat
        exact hat
      simp only [List.map_cons, List.filter_cons]
      rw [if_pos (by simpa using hap)]
      rw [filter_snd_map_tag_eq_nil hpt, hap]
    · have ht : p ∈ t := by
        rcases List.mem_cons.mp hp with he | ht
        · exact absurd he.symm hap
        · exact ht
      simp only [List.map_cons, List.filter_cons]
      rw [if_neg (by simpa using hap)]
      exact ih (List.nodup_cons.mp hnd).2 ht

/-- Helper: diff entries surviving the conflicts exclusion never carry a
conflicted path. -/
theorem filter_kept_diff_eq_nil {diffEntries : List (String × String)}
    {conflictsL : List String} {p : String} (hp : p ∈ conflictsL) :
    ((diffEntries.filter (fun fs => fs.2 ∉ conflictsL)).filter
        (fun e => e.2 = p)) = [] := by
  induction diffEntries with
  | nil => rfl
  | cons a t ih =>
    simp only [List.filter_cons]
    by_cases h : a.2 ∈ conflictsL
    · rw [if_neg (by simpa using h)]
      exact ih
    · rw [if_pos (by simpa using h)]
      have hne : ¬ (a.2 = p) := fun he => h (he ▸ hp)
      simp only [List.filter_cons]
      rw [if_neg (by simpa using hne)]
      exact ih

/-- C9: every path in the persisted conflicts list that passes the file
filter appears in the `tree_status` result exactly once, with status `'C'`
(conflicted paths are excluded from the diff-derived entries). -/
theorem tree_status_conflict_once (files : Option (List String))
    (unknown : Bool) (unknownFiles : List String)
    (conflicts : Option (List String))
    (diffEntries : List (String × String)) (p : String)
    (hassert : pyTruthy files = false ∨ unknown = false)
    (hnd : (getConflictsOrEmpty conflicts).Nodup)
    (hp : p ∈ getConflictsOrEmpty conflicts)
    (hfil : pyTruthy files = false ∨ p ∈ files.getD [])
    (hunk : p ∉ unknownFiles) :
    ((tree_status files unknown unknownFiles conflicts diffEntries).filter
        (fun e => e.2 = p)) = [("C", p)] := by
  unfold tree_status
  simp only [List.filter_append]
  have h1 : (((if unknown then unknownFiles.map (fun f => ("?", f)) else []) :
      List (String × String)).filter (fun e => e.2 = p)) = [] := by
    cases unknown with
    | false => rfl
    | true =>
      simp only [if_pos]
      exact filter_snd_map_tag_eq_nil hunk
  have hcond : p ∈ (getConflictsOrEmpty conflicts).filter
      (fun f => pyTruthy files = false ∨ f ∈ files.getD []) :=
    List.mem_filter.mpr ⟨hp, by simpa using hfil⟩
  have h2 : ((((getConflictsOrEmpty conflicts).filter
        (fun f => pyTruthy files = false ∨ f ∈ files.getD [])).map
        (fun f => ("C", f))).filter (fun e => e.2 = p)) = [("C", p)] :=
    filter_snd_map_conflict (hnd.filter _) hcond
  have h3 : ((diffEntries.filter
        (fun fs => fs.2 ∉ getConflictsOrEmpty conflicts)).filter
        (fun e => e.2 = p)) = [] :=
    filter_kept_diff_eq_nil hp
  rw [h1, h2, h3]
  rfl

/-- Witness for `tree_status_conflict_once`: no file filter, one persisted
conflict `f`, one modified entry for another file `g`. -/
theorem tree_status_conflict_once_witness :
    (pyTruthy none = false ∧
     (getConflictsOrEmpty (some ["f"])).Nodup ∧
     "f" ∈ getConflictsOrEmpty (some ["f"]) ∧
     "f" ∉ ([] : List String)) ∧
    ((tree_status none false [] (some ["f"]) [("M", "g"), ("M", "f")]).filter
        (fun e => e.2 = "f")) = [("C", "f")] :=
  ⟨⟨by decide, by decide, by decide, by decide⟩,
   tree_status_conflict_once none false [] (some ["f"]) [("M", "g"), ("M", "f")]
     "f" (Or.inl (by decide)) (by decide) (by decide) (Or.inl (by decide))
     (by decide)⟩

/-! ### Commit objects and the `__commits` cache (git.py lines 79-148) -/

/-- The data a `Commit` object holds after `__init__` parsed the
`git-cat-file commit` output (git.py lines 82-99). -/
structure CommitObj where
  tree : String
  author : String
  committer : String
  log : String
deriving DecidableEq, Repr

/-- `get_commit(id_hash)` (git.py lines 137-148): look the id up in the
`__commits` dictionary; on a miss, construct the `Commit` (performing the
single backend `git-cat-file` read, abstracted as `backend`) and store it.
Returns the commit, the new dictionary, and whether a backend read
happened. -/
def get_commit (backend : String → CommitObj)
    (commits : List (String × CommitObj)) (id_hash : String) :
    CommitObj × List (String × CommitObj) × Bool :=
  match commits.lookup id_hash with
  | some c => (c, commits, false)
  | none =>
      let c := backend id_hash
      (c, (id_hash, c) :: commits, true)

/-- A whole process life: the results of a sequence of `get_commit` calls,
the final dictionary, and the ids actually read from the backend. -/
structure GetTrace where
  results : List CommitObj
  commits : List (String × CommitObj)
  reads : List String
deriving DecidableEq, Repr

/-- Run a sequence of `get_commit` calls against the module-level
dictionary. -/
def runGetCommits (backend : String → CommitObj)
    (commits : List (String × CommitObj)) : List String → GetTrace
  | [] => ⟨[], commits, []⟩
  | id :: rest =>
      let r := get_commit backend commits id
      let t := runGetCommits backend r.2.1 rest
      ⟨r.1 :: t.results, t.commits, (if r.2.2 then [id] else []) ++ t.reads⟩

/-- Helper: a key found in a cons cell association list but not at its
head is found in the tail. -/
theorem lookup_cons_none {k a : String} {c : CommitObj}
    {l : List (String × CommitObj)}
    (h : (((a, c) :: l).lookup k) = none) : l.lookup k = none := by
  rw [List.lookup_cons] at h
  cases hk : (k == a) with
  | true => rw [hk] at h; cases h
  | false => rw [hk] at h; exact h

/-- Helper: a successful lookup pairs the key with a stored value. -/
theorem lookup_mem {l : List (String × CommitObj)} {k : String}
    {c : CommitObj} (h : l.lookup k = some c) : (k, c) ∈ l := by
  induction l with
  | nil => cases h
  | cons q rest ih =>
    cases q with
    | mk a w =>
      rw [List.lookup_cons] at h
      cases hk : (k == a) with
      | true =>
        rw [hk] at h
        have hka : k = a := by simpa using hk
        have hwc : w = c := Option.some.inj h
        rw [hka, ← hwc]
        exact List.mem_cons_self _ _
      | false =>
        rw [hk] at h
        exact List.mem_cons_of_mem _ (ih h)

/-- C10: starting from a dictionary whose entries record backend results,
every `get_commit` call returns exactly the backend's object for its id (so
repeated calls return the very same cached object), the backend is read at
most once per distinct id over the whole call sequence, and no dictionary
entry is ever removed (the cache is never invalidated). -/
theorem get_commit_cached (backend : String → CommitObj) (ids : List String)
    (commits : List (String × CommitObj))
    (hc : ∀ q ∈ commits, q.2 = backend q.1) :
    (runGetCommits backend commits ids).results = ids.map backend ∧
    (runGetCommits backend commits ids).reads.Nodup ∧
    (∀ r ∈ (runGetCommits backend commits ids).reads,
      commits.lookup r = none) ∧
    (∀ q ∈ commits, q ∈ (runGetCommits backend commits ids).commits) := by
  induction ids generalizing commits with
  | nil =>
    exact ⟨rfl, List.nodup_nil, fun r hr => absurd hr (List.not_mem_nil r),
           fun q hq => hq⟩
  | cons id rest ih =>
    cases hl : commits.lookup id with
    | some c =>
      have hcc : c = backend id := by
        have := hc _ (lookup_mem hl)
        simpa using this
      have hstep : runGetCommits backend commits (id :: rest)
          = ⟨c :: (runGetCommits backend commits rest).results,
             (runGetCommits backend commits rest).commits,
             (runGetCommits backend commits rest).reads⟩ := by
        simp [runGetCommits, get_commit, hl]
      obtain ⟨i1, i2, i3, i4⟩ := ih commits hc
      rw [hstep]
      exact ⟨by simp [i1, hcc], i2, i3, i4⟩
    | none =>
      have hc' : ∀ q ∈ (id, backend id) :: commits, q.2 = backend q.1 := by
        intro q hq
        rcases List.mem_cons.mp hq with he | hm
        · subst he; rfl
        · exact hc q hm
      have hstep : runGetCommits backend commits (id :: rest)
          = ⟨backend id
                :: (runGetCommits backend ((id, backend id) :: commits) rest).results,
             (runGetCommits backend ((id, backend id) :: commits) rest).commits,
             id :: (runGetCommits backend ((id, backend id) :: commits) rest).reads⟩ := by
        simp [runGetCommits, get_commit, hl]
      obtain ⟨i1, i2, i3, i4⟩ := ih ((id, backend id) :: commits) hc'
      rw [hstep]
      refine ⟨by simp [i1], ?_, ?_, ?_⟩
      · refine List.nodup_cons.mpr ⟨?_, i2⟩
        intro hmem
        have := i3 id hmem
        simp [List.lookup_cons] at this
      · intro r hr
        rcases List.mem_cons.mp hr with he | hm
        · subst he; exact hl
        · exact lookup_cons_none (i3 r hm)
      · intro q hq
        exact i4 q (List.mem_cons_of_mem _ hq)

/-- Witness for `get_commit_cached`: two reads of the same id from an empty
dictionary hit the backend once. -/
theorem get_commit_cached_witness :
    (∀ q ∈ ([] : List (String × CommitObj)),
        q.2 = (fun _ => CommitObj.mk "t" "a" "c" "") q.1) ∧
    (runGetCommits (fun _ => CommitObj.mk "t" "a" "c" "") [] ["x", "x"]).results
        = (["x", "x"] : List String).map (fun _ => CommitObj.mk "t" "a" "c" "") ∧
    (runGetCommits (fun _ => CommitObj.mk "t" "a" "c" "") [] ["x", "x"]).reads.Nodup :=
  ⟨by simp,
   (get_commit_cached (fun _ => CommitObj.mk "t" "a" "c" "") ["x", "x"] []
      (by simp)).1,
   (get_commit_cached (fun _ => CommitObj.mk "t" "a" "c" "") ["x", "x"] []
      (by simp)).2.1⟩

end Git

end StGit
